import Mathlib

/-!
Verification of the format-normalization and size-resolution pipeline of the
prime-downloader backend.  The repository contains three near-duplicate
variants of the same server: `src/server.js` (namespace `ServerJs` below),
`src/unnamed/part_000` (namespace `Part000`) and `src/unnamed/part_001`
(namespace `Part001`).  Pure functions are embedded directly; the external
collaborators (the `yt-dlp` process, the axios HEAD/ranged-GET transport and
the Redis cache store) are embedded as oracle inputs to the request handlers.

JavaScript-value conventions used throughout the embedding:
* an optional field is `Option _`; `none` stands for `null`/`undefined`;
* JS truthiness of a string field is `truthyS` (empty string is falsy) and of
  a numeric field is `truthyI` (`0` is falsy);
* `NaN` results of `parseInt`/`parseFloat` are collapsed into `none`: every
  consumer in the source only tests such values for truthiness (`if (len)`,
  `|| 0`, `|| null`), where `NaN`, `null` and `undefined` behave alike;
* the numbers flowing through `humanFileSize` and the sort comparator are
  integers divided by powers of 1024 or decimal literals, all represented
  exactly by IEEE doubles in the relevant range, so they are embedded as
  exact fractions (`Frac` below) rather than floats.
-/

/-- Truthiness of an optional JS string: `null`, `undefined` and `""` are falsy. -/
def truthyS : Option String → Bool
  | none => false
  | some s => s ≠ ""

/-- Truthiness of an optional JS number: `null`, `undefined` and `0` are falsy. -/
def truthyI : Option Int → Bool
  | none => false
  | some n => n ≠ 0

/-- Character-wise model of JS `String.prototype.toLowerCase` (ASCII, as all
strings compared by the source are ASCII keywords and extensions). -/
def jsToLower (s : String) : String := ⟨s.data.map Char.toLower⟩

/-- Character-wise model of JS `String.prototype.toUpperCase`. -/
def jsToUpper (s : String) : String := ⟨s.data.map Char.toUpper⟩

/-- Model of JS `String.prototype.trim`: strip whitespace from both ends. -/
def jsTrim (s : String) : String :=
  ⟨((s.data.dropWhile Char.isWhitespace).reverse.dropWhile Char.isWhitespace).reverse⟩

/-- Whether `pat` occurs as a contiguous run inside `s`. -/
def hasInfix : List Char → List Char → Bool
  | [], pat => pat.isEmpty
  | c :: rest, pat => pat.isPrefixOf (c :: rest) || hasInfix rest pat

/-- Substring test, modelling JS `String.prototype.includes` and the
`/audio/` regular-expression test of the source. -/
def containsSubstr (s pat : String) : Bool := hasInfix s.data pat.data

/-- An exact fraction: `num / den`.  Every operation below produces a
positive denominator from positive denominators; positivity is carried as
side lemmas where proofs need it. -/
structure Frac where
  num : Int
  den : Nat
deriving DecidableEq

/-- The integer `n` as a fraction. -/
def Frac.ofInt (n : Int) : Frac := ⟨n, 1⟩

/-- Division of a fraction by a positive natural number. -/
def Frac.divn (q : Frac) (d : Nat) : Frac := ⟨q.num, q.den * d⟩

/-- Absolute value, modelling JS `Math.abs`. -/
def Frac.abs (q : Frac) : Frac := ⟨|q.num|, q.den⟩

/-- Negation. -/
def Frac.neg (q : Frac) : Frac := ⟨-q.num, q.den⟩

/-- Comparison `q < n` for an integer bound `n` (denominator assumed positive). -/
def Frac.ltInt (q : Frac) (n : Int) : Bool := q.num < n * q.den

/-- Order `a ≤ b` by cross-multiplication (denominators assumed positive). -/
def Frac.le (a b : Frac) : Bool := a.num * b.den ≤ b.num * a.den

/-- Value equality by cross-multiplication (denominators assumed positive). -/
def Frac.veq (a b : Frac) : Bool := a.num * b.den = b.num * a.den

/-- The quantity `q * 10 + 1 / 2`, the one rounded by `toFixed(1)`. -/
def Frac.mul10AddHalf (q : Frac) : Frac := ⟨q.num * 10 * 2 + q.den, q.den * 2⟩

/-- Floor of the fraction (denominator assumed positive). -/
def Frac.floor (q : Frac) : Int := Int.fdiv q.num q.den

/-- Digit list to number, most significant first. -/
def digitsToNat (ds : List Char) : Nat := ds.foldl (fun a c => a * 10 + (c.toNat - 48)) 0

/-- Value of the leading digit run of `cs`, if nonempty. -/
def digitsPrefixVal (cs : List Char) : Option Nat :=
  let ds := cs.takeWhile Char.isDigit
  if ds = [] then none else some (digitsToNat ds)

/-- Model of JS `parseInt(s, 10)`: skip leading whitespace, optional sign,
then the longest digit prefix; `none` models the `NaN` result. -/
def jsParseInt (s : String) : Option Int :=
  let cs := s.data.dropWhile Char.isWhitespace
  match cs with
  | '-' :: rest => (digitsPrefixVal rest).map (fun n => -(n : Int))
  | '+' :: rest => (digitsPrefixVal rest).map (fun n => (n : Int))
  | _ => (digitsPrefixVal cs).map (fun n => (n : Int))

/-- Shared helper of `jsParseFloat`: signless digits, optional point,
fraction digits. -/
def parseFloatCore (cs : List Char) : Option Frac :=
  let int := cs.takeWhile Char.isDigit
  let rest := cs.dropWhile Char.isDigit
  let frac : List Char := match rest with
    | '.' :: t => t.takeWhile Char.isDigit
    | _ => []
  if int = [] ∧ frac = [] then none
  else some ⟨(digitsToNat int : Int) * (10 : Int) ^ frac.length + digitsToNat frac,
             (10 : Nat) ^ frac.length⟩

/-- Model of JS `parseFloat`: skip leading whitespace, optional sign, integer
digits, optional `.` and fraction digits; `none` models `NaN` (no digit at
all).  Exponents never occur in the strings this pipeline parses, so they
are not modelled. -/
def jsParseFloat (s : String) : Option Frac :=
  let cs := s.data.dropWhile Char.isWhitespace
  match cs with
  | '-' :: rest => (parseFloatCore rest).map Frac.neg
  | '+' :: rest => parseFloatCore rest
  | _ => parseFloatCore cs

/-- Whether `cs` is a syntactically valid URI scheme: a letter followed by
letters, digits, `+`, `-` or `.`. -/
def isSchemeChars (cs : List Char) : Bool :=
  match cs with
  | [] => false
  | c :: rest => c.isAlpha && rest.all (fun d => d.isAlphanum || d = '+' || d = '-' || d = '.')

/-- Modelled from the WHATWG `new URL` constructor used by all three variants
(simplified): a string parses iff it starts with a valid scheme, a colon and
at least one further character; the result is the lowercased `protocol`
(scheme plus `":"`), the only component the source ever inspects.  `none`
models the constructor throwing. -/
def jsURLProtocol (s : String) : Option String :=
  let scheme := s.data.takeWhile (fun c => c ≠ ':')
  if isSchemeChars scheme ∧ scheme.length + 1 < s.data.length then
    some (⟨scheme.map Char.toLower⟩ ++ ":")
  else none

/-- Model of JS `Array.prototype.join(" ")`. -/
def joinSpace : List String → String
  | [] => ""
  | [x] => x
  | x :: xs => x ++ " " ++ joinSpace xs

/-- Model of JS `Number.prototype.toFixed(1)`.  The values this pipeline
formats are dyadic rationals (integers divided by powers of 1024), for which
`toFixed` ties cannot occur, so round-half-up agrees with the JS rounding. -/
def toFixed1 (q : Frac) : String :=
  let n : Int := q.mul10AddHalf.floor
  let s := toString (n.natAbs / 10) ++ "." ++ toString (n.natAbs % 10)
  if q.num < 0 then "-" ++ s else s

/-- Function `humanFileSize` of `src/server.js` lines 54-65; textually identical in
`part_000` lines 58-69 and `part_001` lines 57-68.  `none` models the
`null`/`undefined`/`NaN` inputs rejected by `!bytes || isNaN(bytes)`; note
that the JS guard `!bytes` is also true for `0`. -/
def humanFileSize (bytes : Option Int) : String :=
  match bytes with
  | none => "Unknown"
  | some b =>
    if b = 0 then "Unknown"
    else if |b| < 1024 then toString b ++ " B"
    else
      let b1 := (Frac.ofInt b).divn 1024
      if b1.abs.ltInt 1024 then toFixed1 b1 ++ " KB"
      else
        let b2 := b1.divn 1024
        if b2.abs.ltInt 1024 then toFixed1 b2 ++ " MB"
        else
          let b3 := b2.divn 1024
          if b3.abs.ltInt 1024 then toFixed1 b3 ++ " GB"
          else toFixed1 (b3.divn 1024) ++ " TB"

/-- A raw format record as emitted by the metadata extractor (`yt-dlp -j`):
every field is optional and untrusted.  Numeric fields are embedded as
integers (heights, bitrates and byte counts are integral in the extractor's
output). -/
structure RawFormat where
  url : Option String
  vcodec : Option String
  acodec : Option String
  format : Option String
  format_note : Option String
  height : Option Int
  width : Option Int
  tbr : Option Int
  ext : Option String
  filesize : Option Int
  filesize_approx : Option Int
  format_id : Option String
deriving DecidableEq

/-- A raw record with every field absent, the base for concrete examples. -/
def emptyRaw : RawFormat :=
  ⟨none, none, none, none, none, none, none, none, none, none, none, none⟩

/-- The `url` a list entry contributes for validation and deduplication:
`none` for a `null` entry (`!f`), a missing `url` or an empty (falsy) `url`
string. -/
def urlOf : Option RawFormat → Option String
  | none => none
  | some f =>
    match f.url with
    | none => none
    | some u => if u = "" then none else some u

/-- Expression `f.filesize || f.filesize_approx || null`, shared by all three variants. -/
def filesizeOf (f : RawFormat) : Option Int :=
  if truthyI f.filesize then f.filesize
  else if truthyI f.filesize_approx then f.filesize_approx
  else none

/-- Expression `f.ext || null`, shared by all three variants. -/
def extOf (f : RawFormat) : Option String :=
  if truthyS f.ext then f.ext else none

/-- The label of `src/server.js` lines 96-98, textually identical in
`part_001` lines 97-101: `format_note` plus optional `"<height>p"`, trimmed;
else `"<height>p"`; else the uppercased extension; else `"Unknown"`. -/
def labelNoteHeight (f : RawFormat) : String :=
  let hp : String := match f.height with
    | some h => if h ≠ 0 then toString h ++ "p" else ""
    | none => ""
  let extPart : String := match f.ext with
    | some e => if e = "" then "Unknown" else (if jsToUpper e = "" then "Unknown" else jsToUpper e)
    | none => "Unknown"
  let tail := if truthyI f.height then hp else extPart
  match f.format_note with
  | some note => if note ≠ "" then jsTrim (note ++ " " ++ hp) else tail
  | none => tail

/-- The codec-based audio test shared by all three variants:
`f.vcodec === "none" || (f.acodec && !f.vcodec)`. -/
def audioCodecCond (f : RawFormat) : Bool :=
  f.vcodec == some "none" || (truthyS f.acodec && !truthyS f.vcodec)

/-- Generic skeleton of the `normalizeAndFilterFormats` loop shared by the
three variants: per entry, `step` yields the entry's url and candidate when
the entry passes that variant's validation (else the entry is skipped), and
an url already in `seen` is skipped. -/
def dedupGo {C : Type} (step : Option RawFormat → Option (String × C)) :
    List (Option RawFormat) → List String → List C
  | [], _ => []
  | f :: fs, seen =>
    match step f with
    | none => dedupGo step fs seen
    | some (u, c) =>
      if u ∈ seen then dedupGo step fs seen
      else c :: dedupGo step fs (u :: seen)

namespace ServerJs

/-- A normalized candidate of `src/server.js` (fields pushed at lines
100-106); `src/unnamed/part_001` pushes the same fields. -/
structure Candidate where
  label : String
  url : String
  type : String
  filesize : Option Int
  ext : Option String
deriving DecidableEq

/-- Classification of `src/server.js` lines 92-94: codec-based audio test,
then a case-sensitive `includes("audio")` test on `f.format`; there is no
image classification in this variant. -/
def formatType (f : RawFormat) : String :=
  let t := "video"
  let t := if audioCodecCond f then "audio" else t
  let t := if (match f.format with
               | some s => containsSubstr s "audio"
               | none => false) then "audio" else t
  t

/-- The candidate built from a record that passed validation
(`src/server.js` lines 100-106). -/
def mk (f : RawFormat) (u : String) : Candidate :=
  ⟨labelNoteHeight f, u, formatType f, filesizeOf f, extOf f⟩

/-- Validation of `src/server.js` lines 81-88: an entry contributes iff it
has a truthy `url` that parses and whose protocol is `http:` or `https:`. -/
def step (g : Option RawFormat) : Option (String × Candidate) :=
  match g with
  | none => none
  | some f =>
    match urlOf (some f) with
    | none => none
    | some u =>
      match jsURLProtocol u with
      | none => none
      | some p =>
        if p == "http:" || p == "https:" then some (u, mk f u) else none

/-- Function `normalizeAndFilterFormats` of `src/server.js` lines 77-109. -/
def normalizeAndFilterFormats (rawFormats : List (Option RawFormat)) : List Candidate :=
  dedupGo step rawFormats []

end ServerJs

namespace Part001

/-- Classification of `src/unnamed/part_001` lines 94-95: only the
codec-based audio test. -/
def formatType (f : RawFormat) : String :=
  let t := "video"
  let t := if audioCodecCond f then "audio" else t
  t

/-- The candidate built from a record that passed validation
(`src/unnamed/part_001` lines 103-109); it has the same fields as the
`server.js` candidate. -/
def mk (f : RawFormat) (u : String) : ServerJs.Candidate :=
  ⟨labelNoteHeight f, u, formatType f, filesizeOf f, extOf f⟩

/-- Validation of `src/unnamed/part_001` lines 85-90: a truthy `url` that
parses; unlike the other two variants there is no scheme restriction. -/
def step (g : Option RawFormat) : Option (String × ServerJs.Candidate) :=
  match g with
  | none => none
  | some f =>
    match urlOf (some f) with
    | none => none
    | some u =>
      match jsURLProtocol u with
      | none => none
      | some _ => some (u, mk f u)

/-- Function `normalizeAndFilterFormats` of `src/unnamed/part_001` lines 80-112. -/
def normalizeAndFilterFormats (rawFormats : List (Option RawFormat)) : List ServerJs.Candidate :=
  dedupGo step rawFormats []

end Part001

/-- The still-image extension set of `src/unnamed/part_000` line 120. -/
def imageExts : List String := ["jpg", "jpeg", "png", "webp", "gif"]

/-- The image-extension test of `src/unnamed/part_000` line 120:
`f.ext && [...].includes(String(f.ext).toLowerCase())`. -/
def imageExtCond (f : RawFormat) : Bool :=
  match f.ext with
  | some e => e ≠ "" && imageExts.contains (jsToLower e)
  | none => false

/-- The case-insensitive `/audio/i.test(f.format)` hint of
`src/unnamed/part_000` line 119, guarded by `f.format`'s truthiness. -/
def audioFormatCond (f : RawFormat) : Bool :=
  match f.format with
  | some s => s ≠ "" && containsSubstr (jsToLower s) "audio"
  | none => false

namespace Part000

/-- A normalized candidate of `src/unnamed/part_000` (fields pushed at
lines 130-140). -/
structure Candidate where
  label : String
  url : String
  type : String
  filesize : Option Int
  ext : Option String
  width : Option Int
  height : Option Int
  tbr : Option Int
  format_id : Option String
deriving DecidableEq

/-- Classification of `src/unnamed/part_000` lines 117-120: three successive
(non-`else`) `if` reassignments, so a later matching test overrides an
earlier one. -/
def formatType (f : RawFormat) : String :=
  let t := "video"
  let t := if audioCodecCond f then "audio" else t
  let t := if audioFormatCond f then "audio" else t
  let t := if imageExtCond f then "image" else t
  t

/-- Label construction of `src/unnamed/part_000` lines 123-128: collect the
trimmed `format_note` and `"<height>p"`, fall back to `f.format` when both
are missing, join with spaces, and fall back to the uppercased extension or
`"Unknown"` when the join is empty. -/
def label (f : RawFormat) : String :=
  let p1 : List String := match f.format_note with
    | some s => if s ≠ "" then [jsTrim s] else []
    | none => []
  let p2 : List String := match f.height with
    | some h => if h ≠ 0 then [toString h ++ "p"] else []
    | none => []
  let parts := p1 ++ p2
  let parts := if parts = [] then
      (match f.format with
       | some s => if s ≠ "" then [s] else []
       | none => [])
    else parts
  let j := joinSpace parts
  if j ≠ "" then j
  else match f.ext with
    | some e => if e ≠ "" then jsToUpper e else "Unknown"
    | none => "Unknown"

/-- The candidate built from a record that passed validation
(`src/unnamed/part_000` lines 130-140). -/
def mk (f : RawFormat) (u : String) : Candidate :=
  ⟨label f, u, formatType f, filesizeOf f, extOf f,
   if truthyI f.width then f.width else none,
   if truthyI f.height then f.height else none,
   if truthyI f.tbr then f.tbr else none,
   if truthyS f.format_id then f.format_id else none⟩

/-- Validation of `src/unnamed/part_000` lines 105-111: a truthy `url` that
parses with protocol `http:` or `https:`. -/
def step (g : Option RawFormat) : Option (String × Candidate) :=
  match g with
  | none => none
  | some f =>
    match urlOf (some f) with
    | none => none
    | some u =>
      match jsURLProtocol u with
      | none => none
      | some p =>
        if p == "http:" || p == "https:" then some (u, mk f u) else none

/-- Function `normalizeAndFilterFormats` of `src/unnamed/part_000` lines 101-143. -/
def normalizeAndFilterFormats (rawFormats : List (Option RawFormat)) : List Candidate :=
  dedupGo step rawFormats []

end Part000

/-- A response-schema entry `{label, size, url, type}` produced by the
`formats.map` step of each variant. -/
structure Mapped where
  label : String
  size : String
  url : String
  type : String
deriving DecidableEq

/-- Rank induced by the comparator of `src/unnamed/part_000` lines 222-233:
`video` entries sort before `audio` entries before anything else (in the
pipeline the only other type is `image`). -/
def typeRank (t : String) : Nat :=
  if t = "video" then 0 else if t = "audio" then 1 else 2

/-- Expression `parseFloat(a.size) || 0` of `src/unnamed/part_000` lines 225-226: the
numeric prefix of the human-readable size string, or `0` when it has none. -/
def sizeValue (m : Mapped) : Frac :=
  match jsParseFloat m.size with
  | some q => q
  | none => Frac.ofInt 0

/-- Whether `a` may precede `b` under the `part_000` comparator: strictly smaller
type rank, or equal rank with `parseFloat`-size of `a` at least that of `b`
(descending).  For entries whose types lie in {video, audio, image} this is
exactly `compare(a,b) <= 0` for the source comparator. -/
def keyLeB (a b : Mapped) : Bool :=
  typeRank a.type < typeRank b.type ||
    (typeRank a.type == typeRank b.type && Frac.le (sizeValue b) (sizeValue a))

/-- Stable insertion: place `x` before the first element it may precede.
Elements passed over compare strictly below `x`, so elements with equal keys
keep their original order. -/
def sInsert (x : Mapped) : List Mapped → List Mapped
  | [] => [x]
  | y :: ys => if keyLeB x y then x :: y :: ys else y :: sInsert x ys

/-- Model of `mapped.sort(comparator)` of `src/unnamed/part_000` lines
222-233: JS `Array.prototype.sort` is stable, and the comparator is a total
preorder on the types the pipeline produces, so the call returns the stable
sort by `keyLeB`, embedded as stable insertion sort. -/
def sortMapped (l : List Mapped) : List Mapped := l.foldr sInsert []

/-- The membership test of the stability statement: entries with type rank
`r` and `parseFloat`-size equal (as a value) to `v`. -/
def keyIs (r : Nat) (v : Frac) (m : Mapped) : Bool :=
  typeRank m.type == r && Frac.veq (sizeValue m) v

/-- Outcome of one axios HEAD request: a thrown error, or a response with an
optional `content-length` header. -/
inductive HeadResult
  | fail
  | ok (contentLength : Option String)
deriving DecidableEq

/-- Outcome of the ranged-GET fallback request of `part_000`: a thrown
error, or a response with optional `content-range` and `content-length`
headers. -/
inductive RangeResult
  | fail
  | ok (contentRange : Option String) (contentLength : Option String)
deriving DecidableEq

/-- The probe transport's behaviour for one URL. -/
structure ProbeOutcome where
  head : HeadResult
  range : RangeResult
deriving DecidableEq

/-- Function `getContentLength` of `src/server.js` lines 67-75, textually identical
in `part_001` lines 70-78: HEAD only, `null` on a thrown request or a falsy
header (`len ? parseInt(len, 10) : null`). -/
def getContentLength (h : HeadResult) : Option Int :=
  match h with
  | .fail => none
  | .ok none => none
  | .ok (some len) => if len = "" then none else jsParseInt len

/-- The digits captured by the regular expression `/\/(\d+)$/` applied to a
`content-range` style value: the trailing digit run when it is nonempty and
preceded by `/`. -/
def trailingSlashDigits (s : String) : Option String :=
  let rs := s.data.reverse
  let ds := rs.takeWhile Char.isDigit
  if ds = [] then none
  else match rs.drop ds.length with
    | '/' :: _ => some ⟨ds.reverse⟩
    | _ => none

/-- Function `getContentLength` of `src/unnamed/part_000` lines 72-98: HEAD first
(a successful HEAD without a usable header returns `null` directly); when
HEAD throws, fall back to a ranged GET and read
`content-range || content-length`, preferring the total after the final
`/`; `parseInt(len, 10) || null` collapses `NaN` and `0` to `null`. -/
def Part000.getContentLength (h : HeadResult) (r : RangeResult) : Option Int :=
  match h with
  | .ok none => none
  | .ok (some len) => if len = "" then none else jsParseInt len
  | .fail =>
    match r with
    | .fail => none
    | .ok cr cl =>
      let len : Option String := if truthyS cr then cr else if truthyS cl then cl else none
      match len with
      | none => none
      | some s =>
        match trailingSlashDigits s with
        | some ds => jsParseInt ds
        | none =>
          match jsParseInt s with
          | some n => if n = 0 then none else some n
          | none => none

/-- Assignment `if (len) f.filesize = len` applied to one candidate: a truthy probed
length overwrites a missing size; `null`, `NaN` (`none`) and `0` do not. -/
def applyLen (len : Option Int) (f : ServerJs.Candidate) : ServerJs.Candidate :=
  match len with
  | some n => if n ≠ 0 then { f with filesize := some n } else f
  | none => f

/-- Like `applyLen` for the richer `part_000` candidate. -/
def Part000.applyLen (len : Option Int) (f : Part000.Candidate) : Part000.Candidate :=
  match len with
  | some n => if n ≠ 0 then { f with filesize := some n } else f
  | none => f

/-- The size-resolution step of `src/server.js` lines 161-166: probe the
first 6 candidates with falsy `filesize` (`filter(...).slice(0, 6)`) via
HEAD, and store truthy lengths.  The in-place mutation is embedded as a map
keyed by url, exact because the candidate list is deduplicated by url. -/
def ServerJs.fillSizes (probe : String → HeadResult) (l : List ServerJs.Candidate) :
    List ServerJs.Candidate :=
  let probeUrls := ((l.filter (fun f => !truthyI f.filesize)).take 6).map (·.url)
  l.map fun f =>
    if !truthyI f.filesize && probeUrls.contains f.url then
      applyLen (getContentLength (probe f.url)) f
    else f

/-- The size-resolution step of `src/unnamed/part_000` lines 201-211: every
candidate with falsy `filesize` is probed (the chunking by 6 only bounds
concurrency and does not affect the resulting values). -/
def Part000.fillSizes (probe : String → ProbeOutcome) (l : List Part000.Candidate) :
    List Part000.Candidate :=
  l.map fun f =>
    if !truthyI f.filesize then
      Part000.applyLen (Part000.getContentLength (probe f.url).head (probe f.url).range) f
    else f

/-- The response-schema projection of `src/server.js` lines 168-173. -/
def ServerJs.toMapped (f : ServerJs.Candidate) : Mapped :=
  ⟨f.label, humanFileSize f.filesize, f.url, f.type⟩

/-- The response-schema projection of `src/unnamed/part_000` lines 214-219,
with its extra fallbacks `f.label || (f.height ? h+"p" : (f.ext || "file"))`
and `f.type || "video"`. -/
def Part000.toMapped (f : Part000.Candidate) : Mapped :=
  let extOrFile : String := match f.ext with
    | some e => if e ≠ "" then e else "file"
    | none => "file"
  let lbl : String :=
    if f.label ≠ "" then f.label
    else match f.height with
      | some h => if h ≠ 0 then toString h ++ "p" else extOrFile
      | none => extOrFile
  ⟨lbl, humanFileSize f.filesize, f.url, if f.type ≠ "" then f.type else "video"⟩

/-- Result of the cache read `redis.get(cacheKey)` followed by
`JSON.parse`: a store/parse failure, a miss, or a hit carrying the cached
payload. -/
inductive CacheRead
  | err
  | miss
  | hit (payload : List Mapped)
deriving DecidableEq

/-- Result of the cache write `redis.set(...)`: a store failure carrying the
error's optional `message`, or success. -/
inductive CacheWrite
  | err (msg : Option String)
  | done
deriving DecidableEq

/-- The extraction metadata the handler reads from `yt-dlp`'s stdout. -/
structure Meta where
  formats : List (Option RawFormat)
deriving DecidableEq

/-- Result of running `yt-dlp -j` and parsing its stdout: a process/parse
failure carrying the error's optional `message`, or parsed metadata
(`none` for a parsed `null`, on which reading `.formats` throws). -/
inductive ExtractResult
  | err (msg : Option String)
  | ok (meta : Option Meta)
deriving DecidableEq

/-- The external collaborators of one `/api/extract` request. -/
structure Oracles where
  cacheRead : CacheRead
  ytdlp : ExtractResult
  probe : String → ProbeOutcome
  cacheWrite : CacheWrite

/-- An inbound `/api/extract` request: `req.query.url`,
`req.headers["x-api-key"]` and `req.query.apikey`. -/
structure Request where
  url : Option String
  xApiKey : Option String
  apikeyQuery : Option String
deriving DecidableEq

/-- A response body: an `{error: ...}` object or a formats payload. -/
inductive Body
  | errMsg (s : String)
  | formatsPayload (l : List Mapped)
deriving DecidableEq

/-- An HTTP response: status code and JSON body. -/
structure Response where
  status : Nat
  body : Body
deriving DecidableEq

/-- Expression `error.message || "Failed to extract formats"` of `src/server.js`
line 184. -/
def errText (m : Option String) : String :=
  match m with
  | some s => if s ≠ "" then s else "Failed to extract formats"
  | none => "Failed to extract formats"

/-- The `/api/extract` handler of `src/server.js` lines 123-186.  The result
is `Except`: `.error` models a rejected promise escaping the `async` handler
(Express 4 does not catch it, so no response is produced by the handler) —
this happens exactly when the cache read at lines 131-134, which is outside
the `try` block, fails.  A cache-write failure at line 178 happens inside
the `try` block and is answered by the generic 500 handler of line 184.
The configured `API_KEY` is read at line 19 but never checked in this
variant, hence the unused `apiKey` argument. -/
def ServerJs.extractHandler (_apiKey : Option String) (enableCaching : Bool)
    (req : Request) (o : Oracles) : Except (Option String) Response :=
  match req.url with
  | none => .ok ⟨400, .errMsg "Missing url parameter"⟩
  | some target =>
    if target = "" then .ok ⟨400, .errMsg "Missing url parameter"⟩
    else if jsURLProtocol target = none then .ok ⟨400, .errMsg "Invalid url"⟩
    else
      let rest : Except (Option String) Response :=
        match o.ytdlp with
        | .err m => .ok ⟨500, .errMsg (errText m)⟩
        | .ok none => .ok ⟨500, .errMsg "yt-dlp returned no valid JSON"⟩
        | .ok (some meta) =>
          let formats := ServerJs.normalizeAndFilterFormats meta.formats
          let formats := ServerJs.fillSizes (fun u => (o.probe u).head) formats
          let mapped := formats.map ServerJs.toMapped
          if enableCaching then
            match o.cacheWrite with
            | .err m => .ok ⟨500, .errMsg (errText m)⟩
            | .done => .ok ⟨200, .formatsPayload mapped⟩
          else .ok ⟨200, .formatsPayload mapped⟩
      match enableCaching, o.cacheRead with
      | true, .err => .error none
      | true, .hit p => .ok ⟨200, .formatsPayload p⟩
      | true, .miss => rest
      | false, _ => rest

/-- The effective credential of `src/unnamed/part_000` line 152:
`req.headers["x-api-key"] || req.query.apikey`. -/
def Part000.effectiveKey (req : Request) : Option String :=
  if truthyS req.xApiKey then req.xApiKey else req.apikeyQuery

/-- The `/api/extract` handler of `src/unnamed/part_000` lines 146-249.
Every fallible collaborator call is wrapped in `try`/`catch` in this
variant: a failed cache read (lines 168-176) or cache write (lines 239-241)
is only logged — a cache-write failure does not influence the response at
all, which is why `o.cacheWrite` is not consulted — and the `yt-dlp` stage
answers 500 with the fixed message of line 247.  The credential check of
lines 151-156 runs before URL validation, cache access and extraction. -/
def Part000.extractHandler (apiKey : Option String) (enableCaching : Bool)
    (req : Request) (o : Oracles) : Response :=
  match req.url with
  | none => ⟨400, .errMsg "Missing url parameter"⟩
  | some target =>
    if target = "" then ⟨400, .errMsg "Missing url parameter"⟩
    else
      let keyOk : Bool := match apiKey with
        | none => true
        | some k => match Part000.effectiveKey req with
          | some s => s ≠ "" && s == k
          | none => false
      if !keyOk then ⟨401, .errMsg "Missing or invalid API key"⟩
      else if jsURLProtocol target = none then ⟨400, .errMsg "Invalid url"⟩
      else
        let rest : Response :=
          match o.ytdlp with
          | .err _ => ⟨500, .errMsg "Failed to extract formats"⟩
          | .ok none => ⟨500, .errMsg "Failed to extract formats"⟩
          | .ok (some meta) =>
            let formats := Part000.normalizeAndFilterFormats meta.formats
            let formats := Part000.fillSizes o.probe formats
            let mapped := formats.map Part000.toMapped
            let mapped := sortMapped mapped
            ⟨200, .formatsPayload mapped⟩
        match enableCaching, o.cacheRead with
        | true, .hit p => ⟨200, .formatsPayload p⟩
        | _, _ => rest

theorem dedupGo_mem {C : Type} {step : Option RawFormat → Option (String × C)}
    {l : List (Option RawFormat)} {seen : List String} {c : C}
    (h : c ∈ dedupGo step l seen) :
    ∃ g u, g ∈ l ∧ step g = some (u, c) ∧ u ∉ seen := by
  induction l generalizing seen with
  | nil => simp [dedupGo] at h
  | cons f fs ih =>
    rw [dedupGo] at h
    split at h
    · obtain ⟨g, u, hg, hstep, hseen⟩ := ih h
      exact ⟨g, u, List.mem_cons_of_mem _ hg, hstep, hseen⟩
    next u c' hs =>
      split at h
      · obtain ⟨g, u', hg, hstep, hseen⟩ := ih h
        exact ⟨g, u', List.mem_cons_of_mem _ hg, hstep, hseen⟩
      next hin =>
        rcases List.mem_cons.mp h with rfl | h'
        · exact ⟨f, u, List.mem_cons_self _ _, hs, hin⟩
        · obtain ⟨g, u', hg, hstep, hseen⟩ := ih h'
          exact ⟨g, u', List.mem_cons_of_mem _ hg, hstep,
            fun hx => hseen (List.mem_cons_of_mem _ hx)⟩

theorem dedupGo_notSeen {C : Type} {step : Option RawFormat → Option (String × C)}
    (urlC : C → String) (hurl : ∀ g u c, step g = some (u, c) → urlC c = u)
    {l : List (Option RawFormat)} {seen : List String} {c : C}
    (h : c ∈ dedupGo step l seen) : urlC c ∉ seen := by
  induction l generalizing seen with
  | nil => simp [dedupGo] at h
  | cons f fs ih =>
    rw [dedupGo] at h
    split at h
    · exact ih h
    next u c' hs =>
      split at h
      · exact ih h
      next hin =>
        rcases List.mem_cons.mp h with rfl | h'
        · rw [hurl f u c hs]; exact hin
        · exact fun hx => ih h' (List.mem_cons_of_mem _ hx)

theorem dedupGo_pairwise {C : Type} {step : Option RawFormat → Option (String × C)}
    (urlC : C → String) (hurl : ∀ g u c, step g = some (u, c) → urlC c = u)
    (l : List (Option RawFormat)) (seen : List String) :
    List.Pairwise (fun a b => urlC a ≠ urlC b) (dedupGo step l seen) := by
  induction l generalizing seen with
  | nil => simp [dedupGo]
  | cons f fs ih =>
    rw [dedupGo]
    split
    · exact ih seen
    next u c' hs =>
      split
      · exact ih seen
      next hin =>
        refine List.Pairwise.cons (fun b hb => ?_) (ih (u :: seen))
        have hnotin := dedupGo_notSeen urlC hurl hb
        rw [hurl f u c' hs]
        exact fun he => hnotin (he ▸ List.mem_cons_self _ _)

theorem dedupGo_firstOcc {C : Type} {step : Option RawFormat → Option (String × C)}
    {l : List (Option RawFormat)} {seen : List String} {c : C}
    (h : c ∈ dedupGo step l seen) :
    ∃ l₁ g l₂ u, l = l₁ ++ g :: l₂ ∧ step g = some (u, c) ∧ u ∉ seen ∧
      ∀ b ∈ l₁, ∀ p : String × C, step b = some p → p.1 ≠ u := by
  induction l generalizing seen with
  | nil => simp [dedupGo] at h
  | cons f fs ih =>
    rw [dedupGo] at h
    split at h
    next hs =>
      obtain ⟨l₁, g, l₂, u, rfl, hstep, hseen, hfirst⟩ := ih h
      refine ⟨f :: l₁, g, l₂, u, rfl, hstep, hseen, fun b hb p hp => ?_⟩
      rcases List.mem_cons.mp hb with rfl | hb'
      · rw [hs] at hp; cases hp
      · exact hfirst b hb' p hp
    next u c' hs =>
      split at h
      next hin =>
        obtain ⟨l₁, g, l₂, u', rfl, hstep, hseen, hfirst⟩ := ih h
        refine ⟨f :: l₁, g, l₂, u', rfl, hstep, hseen, fun b hb p hp => ?_⟩
        rcases List.mem_cons.mp hb with rfl | hb'
        · rw [hs] at hp
          obtain rfl : p = (u, c') := (Option.some.inj hp).symm
          exact fun he => hseen (he ▸ hin)
        · exact hfirst b hb' p hp
      next hin =>
        rcases List.mem_cons.mp h with rfl | h'
        · exact ⟨[], f, fs, u, rfl, hs, hin, by simp⟩
        · obtain ⟨l₁, g, l₂, u', rfl, hstep, hseen, hfirst⟩ := ih h'
          refine ⟨f :: l₁, g, l₂, u', rfl, hstep, ?_, fun b hb p hp => ?_⟩
          · exact fun hx => hseen (List.mem_cons_of_mem _ hx)
          · rcases List.mem_cons.mp hb with rfl | hb'
            · rw [hs] at hp
              obtain rfl : p = (u, c') := (Option.some.inj hp).symm
              intro he
              exact hseen (he ▸ List.mem_cons_self _ _)
            · exact hfirst b hb' p hp

/-- Acceptance condition of the `server.js`/`part_000` validation: the url
parses with protocol `http:` or `https:`. -/
def acceptsHttp (u : String) : Bool :=
  match jsURLProtocol u with
  | some p => p == "http:" || p == "https:"
  | none => false

/-- Acceptance condition of the `part_001` validation: the url parses. -/
def acceptsAny (u : String) : Bool :=
  match jsURLProtocol u with
  | some _ => true
  | none => false

theorem acceptsHttp_iff {u : String} :
    acceptsHttp u = true ↔
      jsURLProtocol u = some "http:" ∨ jsURLProtocol u = some "https:" := by
  rw [acceptsHttp]
  rcases hp : jsURLProtocol u with _ | p
  · simp
  · simp [hp]

theorem acceptsAny_iff {u : String} : acceptsAny u = true ↔ jsURLProtocol u ≠ none := by
  rw [acceptsAny]
  rcases hp : jsURLProtocol u with _ | p <;> simp [hp]

theorem serverJs_step_inv {g : Option RawFormat} {u : String} {c : ServerJs.Candidate}
    (h : ServerJs.step g = some (u, c)) :
    ∃ f, g = some f ∧ urlOf g = some u ∧ acceptsHttp u = true ∧ c = ServerJs.mk f u := by
  unfold ServerJs.step at h
  split at h
  · cases h
  next f =>
    refine ⟨f, rfl, ?_⟩
    split at h
    · cases h
    next u' hu =>
      split at h
      · cases h
      next p hp =>
        split at h
        next hcond =>
          simp only [Option.some.injEq, Prod.mk.injEq] at h
          obtain ⟨rfl, rfl⟩ := h
          exact ⟨hu, by rw [acceptsHttp, hp]; exact hcond, rfl⟩
        · cases h

theorem serverJs_step_of {g : Option RawFormat} {u : String}
    (hu : urlOf g = some u) (ha : acceptsHttp u = true) :
    ∃ c, ServerJs.step g = some (u, c) := by
  cases g with
  | none => simp [urlOf] at hu
  | some f =>
    rw [acceptsHttp] at ha
    rcases hp : jsURLProtocol u with _ | p
    · rw [hp] at ha; exact absurd ha (by simp)
    · rw [hp] at ha
      simp only [] at ha
      exact ⟨ServerJs.mk f u, by simp [ServerJs.step, hu, hp, ha]⟩

theorem part000_step_inv {g : Option RawFormat} {u : String} {c : Part000.Candidate}
    (h : Part000.step g = some (u, c)) :
    ∃ f, g = some f ∧ urlOf g = some u ∧ acceptsHttp u = true ∧ c = Part000.mk f u := by
  unfold Part000.step at h
  split at h
  · cases h
  next f =>
    refine ⟨f, rfl, ?_⟩
    split at h
    · cases h
    next u' hu =>
      split at h
      · cases h
      next p hp =>
        split at h
        next hcond =>
          simp only [Option.some.injEq, Prod.mk.injEq] at h
          obtain ⟨rfl, rfl⟩ := h
          exact ⟨hu, by rw [acceptsHttp, hp]; exact hcond, rfl⟩
        · cases h

theorem part000_step_of {g : Option RawFormat} {u : String}
    (hu : urlOf g = some u) (ha : acceptsHttp u = true) :
    ∃ c, Part000.step g = some (u, c) := by
  cases g with
  | none => simp [urlOf] at hu
  | some f =>
    rw [acceptsHttp] at ha
    rcases hp : jsURLProtocol u with _ | p
    · rw [hp] at ha; exact absurd ha (by simp)
    · rw [hp] at ha
      simp only [] at ha
      exact ⟨Part000.mk f u, by simp [Part000.step, hu, hp, ha]⟩

theorem part001_step_inv {g : Option RawFormat} {u : String} {c : ServerJs.Candidate}
    (h : Part001.step g = some (u, c)) :
    ∃ f, g = some f ∧ urlOf g = some u ∧ acceptsAny u = true ∧ c = Part001.mk f u := by
  unfold Part001.step at h
  split at h
  · cases h
  next f =>
    refine ⟨f, rfl, ?_⟩
    split at h
    · cases h
    next u' hu =>
      split at h
      · cases h
      next p hp =>
        simp only [Option.some.injEq, Prod.mk.injEq] at h
        obtain ⟨rfl, rfl⟩ := h
        exact ⟨hu, by rw [acceptsAny, hp], rfl⟩

theorem part001_step_of {g : Option RawFormat} {u : String}
    (hu : urlOf g = some u) (ha : acceptsAny u = true) :
    ∃ c, Part001.step g = some (u, c) := by
  cases g with
  | none => simp [urlOf] at hu
  | some f =>
    rw [acceptsAny] at ha
    rcases hp : jsURLProtocol u with _ | p
    · rw [hp] at ha; exact absurd ha (by simp)
    · exact ⟨Part001.mk f u, by simp [Part001.step, hu, hp]⟩

/-- First-occurrence property, generically: a candidate of the normalized
output stems from the first entry of the input carrying its url. -/
theorem dedupFirstOccurrence {C : Type} {step : Option RawFormat → Option (String × C)}
    (urlC : C → String) (acc : String → Bool)
    (hurl : ∀ g u c, step g = some (u, c) → urlC c = u)
    (hinv : ∀ g u c, step g = some (u, c) → urlOf g = some u ∧ acc u = true)
    (hof : ∀ g u, urlOf g = some u → acc u = true → ∃ c, step g = some (u, c))
    {raw : List (Option RawFormat)} {c : C} (h : c ∈ dedupGo step raw []) :
    ∃ l₁ g l₂, raw = l₁ ++ g :: l₂ ∧ step g = some (urlC c, c) ∧
      ∀ b ∈ l₁, urlOf b ≠ some (urlC c) := by
  obtain ⟨l₁, g, l₂, u, rfl, hstep, _, hfirst⟩ := dedupGo_firstOcc h
  obtain rfl : urlC c = u := hurl g u c hstep
  refine ⟨l₁, g, l₂, rfl, hstep, fun b hb he => ?_⟩
  obtain ⟨_, hacc⟩ := hinv g (urlC c) c hstep
  obtain ⟨c', hb'⟩ := hof b (urlC c) he hacc
  exact hfirst b hb (urlC c, c') hb' rfl

/-- C1: for every input list of raw format records, each of the three
`normalizeAndFilterFormats` variants returns candidates with pairwise
distinct urls; every candidate stems — all derived fields included — from
the first input entry carrying its url (`step g = some (c.url, c)` states
that `c` is exactly the candidate built from that entry `g`), and no
earlier entry carries the same url. -/
theorem C1_dedup_first_occurrence :
    ∀ raw : List (Option RawFormat),
      (List.Pairwise (fun a b => a.url ≠ b.url) (ServerJs.normalizeAndFilterFormats raw) ∧
        ∀ c ∈ ServerJs.normalizeAndFilterFormats raw,
          ∃ l₁ g l₂, raw = l₁ ++ g :: l₂ ∧ ServerJs.step g = some (c.url, c) ∧
            ∀ b ∈ l₁, urlOf b ≠ some c.url) ∧
      (List.Pairwise (fun a b => a.url ≠ b.url) (Part000.normalizeAndFilterFormats raw) ∧
        ∀ c ∈ Part000.normalizeAndFilterFormats raw,
          ∃ l₁ g l₂, raw = l₁ ++ g :: l₂ ∧ Part000.step g = some (c.url, c) ∧
            ∀ b ∈ l₁, urlOf b ≠ some c.url) ∧
      (List.Pairwise (fun a b => a.url ≠ b.url) (Part001.normalizeAndFilterFormats raw) ∧
        ∀ c ∈ Part001.normalizeAndFilterFormats raw,
          ∃ l₁ g l₂, raw = l₁ ++ g :: l₂ ∧ Part001.step g = some (c.url, c) ∧
            ∀ b ∈ l₁, urlOf b ≠ some c.url) := by
  intro raw
  have hurlS : ∀ g u c, ServerJs.step g = some (u, c) → ServerJs.Candidate.url c = u := by
    intro g u c h
    obtain ⟨f, _, _, _, rfl⟩ := serverJs_step_inv h
    rfl
  have hinvS : ∀ g u c, ServerJs.step g = some (u, c) → urlOf g = some u ∧ acceptsHttp u = true := by
    intro g u c h
    obtain ⟨f, _, h1, h2, _⟩ := serverJs_step_inv h
    exact ⟨h1, h2⟩
  have hurl0 : ∀ g u c, Part000.step g = some (u, c) → Part000.Candidate.url c = u := by
    intro g u c h
    obtain ⟨f, _, _, _, rfl⟩ := part000_step_inv h
    rfl
  have hinv0 : ∀ g u c, Part000.step g = some (u, c) → urlOf g = some u ∧ acceptsHttp u = true := by
    intro g u c h
    obtain ⟨f, _, h1, h2, _⟩ := part000_step_inv h
    exact ⟨h1, h2⟩
  have hurl1 : ∀ g u c, Part001.step g = some (u, c) → ServerJs.Candidate.url c = u := by
    intro g u c h
    obtain ⟨f, _, _, _, rfl⟩ := part001_step_inv h
    rfl
  have hinv1 : ∀ g u c, Part001.step g = some (u, c) → urlOf g = some u ∧ acceptsAny u = true := by
    intro g u c h
    obtain ⟨f, _, h1, h2, _⟩ := part001_step_inv h
    exact ⟨h1, h2⟩
  refine ⟨⟨dedupGo_pairwise _ hurlS raw [], fun c hc => ?_⟩,
          ⟨dedupGo_pairwise _ hurl0 raw [], fun c hc => ?_⟩,
          ⟨dedupGo_pairwise _ hurl1 raw [], fun c hc => ?_⟩⟩
  · exact dedupFirstOccurrence _ acceptsHttp hurlS hinvS
      (fun g u hu ha => serverJs_step_of hu ha) hc
  · exact dedupFirstOccurrence _ acceptsHttp hurl0 hinv0
      (fun g u hu ha => part000_step_of hu ha) hc
  · exact dedupFirstOccurrence _ acceptsAny hurl1 hinv1
      (fun g u hu ha => part001_step_of hu ha) hc

/-- Witness for C1 at a concrete input: a duplicated url (with different
derived fields) and a distinct second url. -/
theorem C1_witness :
    List.Pairwise (fun a b => a.url ≠ b.url)
      (ServerJs.normalizeAndFilterFormats
        [some { emptyRaw with url := some "https://a/x.mp4", height := some 720 },
         some { emptyRaw with url := some "https://a/x.mp4", height := some 480 },
         some { emptyRaw with url := some "https://a/y.mp4" }]) :=
  (C1_dedup_first_occurrence
    [some { emptyRaw with url := some "https://a/x.mp4", height := some 720 },
     some { emptyRaw with url := some "https://a/x.mp4", height := some 480 },
     some { emptyRaw with url := some "https://a/y.mp4" }]).1.1

/-- C4, counterexample: in the `part_001` variant a record whose url is
`"ftp://host/f"` is NOT dropped — its candidate appears in the output —
because that variant's validation only requires `new URL(f.url)` to parse
and never inspects the scheme.  The claim asserts such a record is always
absent from the output of `normalizeAndFilterFormats`. -/
theorem C4_counterexample :
    (Part001.normalizeAndFilterFormats [some { emptyRaw with url := some "ftp://host/f" }]).map
        (·.url) = ["ftp://host/f"] ∧
    jsURLProtocol "ftp://host/f" = some "ftp:" := by
  constructor
  · decide
  · decide

/-- C4, amended: in the `server.js` and `part_000` variants every output
candidate's url parses with protocol `http:` or `https:` — so a record that
lacks a url, has an unparseable url, or a non-http(s) scheme (for example
`"ftp://host/f"`) is dropped silently, regardless of its other fields.  In
the `part_001` variant only records lacking a url or with an unparseable
url are dropped: every output candidate's url parses, but any parseable
scheme (including `ftp:`) is kept. -/
theorem C4_scheme_filter :
    ∀ raw : List (Option RawFormat),
      (∀ c ∈ ServerJs.normalizeAndFilterFormats raw,
        jsURLProtocol c.url = some "http:" ∨ jsURLProtocol c.url = some "https:") ∧
      (∀ c ∈ Part000.normalizeAndFilterFormats raw,
        jsURLProtocol c.url = some "http:" ∨ jsURLProtocol c.url = some "https:") ∧
      (∀ c ∈ Part001.normalizeAndFilterFormats raw, jsURLProtocol c.url ≠ none) := by
  intro raw
  refine ⟨fun c hc => ?_, fun c hc => ?_, fun c hc => ?_⟩
  · obtain ⟨g, u, _, hstep, _⟩ := dedupGo_mem hc
    obtain ⟨f, _, _, hacc, rfl⟩ := serverJs_step_inv hstep
    exact acceptsHttp_iff.mp hacc
  · obtain ⟨g, u, _, hstep, _⟩ := dedupGo_mem hc
    obtain ⟨f, _, _, hacc, rfl⟩ := part000_step_inv hstep
    exact acceptsHttp_iff.mp hacc
  · obtain ⟨g, u, _, hstep, _⟩ := dedupGo_mem hc
    obtain ⟨f, _, _, hacc, rfl⟩ := part001_step_inv hstep
    exact acceptsAny_iff.mp hacc

/-- Witness for C4 at a concrete input mixing a missing url, an unparseable
url, an `ftp` url and an `https` url: the surviving candidate's url has an
http(s) protocol. -/
theorem C4_witness :
    jsURLProtocol (ServerJs.mk { emptyRaw with url := some "https://ok/v" } "https://ok/v").url
        = some "http:" ∨
      jsURLProtocol (ServerJs.mk { emptyRaw with url := some "https://ok/v" } "https://ok/v").url
        = some "https:" :=
  (C4_scheme_filter
    [some emptyRaw, some { emptyRaw with url := some "no scheme" },
     some { emptyRaw with url := some "ftp://host/f" },
     some { emptyRaw with url := some "https://ok/v" }]).1
    (ServerJs.mk { emptyRaw with url := some "https://ok/v" } "https://ok/v") (by decide)

/-- C3, counterexample: in the `part_000` variant — the only one that
classifies images — a record with the explicit no-video marker
`vcodec: "none"` and extension `png` classifies as `image`, not `audio`:
the three classification `if`s are successive reassignments, so the
image-extension test, evaluated last, overrides the audio markers. -/
theorem C3_counterexample :
    (Part000.normalizeAndFilterFormats
        [some { emptyRaw with url := some "https://a/b", vcodec := some "none",
                              ext := some "png" }]).map (·.type) = ["image"] ∧
      ("image" : String) ≠ "audio" :=
  ⟨by decide, by decide⟩

/-- C3, amended: classification in `part_000` is determined by the checks in
reverse order (last matching reassignment wins): a record whose extension is
in the still-image set classifies as `image` even when it carries a no-video
codec marker or an audio hint; otherwise the no-video/audio-codec marker or
an `audio` hint in the free-text format descriptor gives `audio`; otherwise
`video`.  In particular a record with extension `png` and no audio/video
hints still classifies as `image`.  The first conjunct ties the candidate
type to the classifier. -/
theorem C3_classification_last_wins :
    ∀ (f : RawFormat) (u : String),
      (Part000.mk f u).type = Part000.formatType f ∧
      Part000.formatType f =
        (if imageExtCond f then "image"
         else if audioCodecCond f || audioFormatCond f then "audio"
         else "video") := by
  intro f u
  refine ⟨rfl, ?_⟩
  cases himg : imageExtCond f <;> cases hac : audioCodecCond f <;>
    cases haf : audioFormatCond f <;>
      simp [Part000.formatType, himg, hac, haf]

/-- Witness for C3 at a concrete input: extension `png`, no audio or video
hints, classified `image`. -/
theorem C3_witness :
    Part000.formatType { emptyRaw with url := some "https://a/b", ext := some "png" }
      = "image" :=
  ((C3_classification_last_wins
      { emptyRaw with url := some "https://a/b", ext := some "png" } "https://a/b").2).trans
    (by decide)

theorem strData_append (s t : String) : (s ++ t).data = s.data ++ t.data := by
  cases s
  cases t
  rfl

theorem strNe_of_dataNe {s : String} (h : s.data ≠ []) : s ≠ "" := by
  intro he
  exact h (by rw [he])

theorem strDataNe_of_ne {s : String} (h : s ≠ "") : s.data ≠ [] := by
  intro he
  apply h
  cases s with
  | mk d => cases he; rfl

theorem jsToUpper_ne {e : String} (h : e ≠ "") : jsToUpper e ≠ "" := by
  apply strNe_of_dataNe
  rw [jsToUpper]
  simpa using strDataNe_of_ne h

theorem appendP_ne (s : String) : s ++ "p" ≠ "" := by
  apply strNe_of_dataNe
  rw [strData_append]
  simp

theorem appendMid_ne (a b c : String) : a ++ " " ++ b ++ c ≠ "" := by
  apply strNe_of_dataNe
  rw [strData_append, strData_append, strData_append]
  simp

/-- Fallback `f.ext ? f.ext.toUpperCase() : "Unknown"`, the final step of the
`part_000` label chain. -/
def Part000.extFallback (f : RawFormat) : String :=
  if truthyS f.ext then jsToUpper (f.ext.getD "") else "Unknown"

/-- The `part_000` label construction written as a first-match-wins chain
(the amended spec reading): trimmed `format_note` joined with `"<height>p"`
when both are truthy; the surviving one of the two when only one is truthy
(with the extension fallback when the trimmed note is empty); else the
free-text `format`; else the uppercased extension; else `"Unknown"`. -/
def Part000.specLabel (f : RawFormat) : String :=
  let noteT := jsTrim (f.format_note.getD "")
  let hp := toString (f.height.getD 0) ++ "p"
  if truthyS f.format_note then
    if truthyI f.height then noteT ++ " " ++ hp
    else if noteT ≠ "" then noteT
    else Part000.extFallback f
  else if truthyI f.height then hp
  else if truthyS f.format then f.format.getD ""
  else Part000.extFallback f

theorem Part000.extFallback_ne (f : RawFormat) : Part000.extFallback f ≠ "" := by
  rw [Part000.extFallback]
  rcases hx : f.ext with _ | e
  · simp [truthyS]
  · by_cases he : e = ""
    · simp [truthyS, he]
    · simp only [truthyS, hx, Option.getD_some]
      rw [if_pos (by simpa using he)]
      exact jsToUpper_ne he

theorem appendSpace_ne (a b : String) : a ++ " " ++ b ≠ "" := by
  apply strNe_of_dataNe
  rw [strData_append, strData_append]
  simp

theorem Part000.specLabel_ne (f : RawFormat) : Part000.specLabel f ≠ "" := by
  rw [Part000.specLabel]
  split_ifs with h1 h2 h3 h4 h5
  · exact appendSpace_ne _ _
  · exact h3
  · exact Part000.extFallback_ne f
  · exact appendP_ne _
  · rcases hf : f.format with _ | s
    · rw [hf] at h5
      exact absurd h5 (by simp [truthyS])
    · rw [hf] at h5
      simp only [truthyS, decide_eq_true_eq] at h5
      simpa using h5
  · exact Part000.extFallback_ne f

set_option maxHeartbeats 1000000 in
theorem Part000.label_eq_specLabel (f : RawFormat) :
    Part000.label f = Part000.specLabel f := by
  rw [Part000.label, Part000.specLabel, Part000.extFallback]
  rcases hn : f.format_note with _ | note <;>
    rcases hh : f.height with _ | h <;>
      rcases hf : f.format with _ | s <;>
        rcases he : f.ext with _ | e <;>
          simp only [truthyS, truthyI, Option.getD_some, Option.getD_none,
            decide_eq_true_eq] <;>
          split_ifs <;>
          first
            | rfl
            | simp_all [joinSpace, appendP_ne, appendSpace_ne, jsToUpper_ne]

/-- C5, counterexample: the `part_000` label is not always trimmed.  For a
validated record whose only text field is `format = " x "`, the produced
label is `" x "`, which carries leading and trailing whitespace (its trim
differs from it).  The `format` fallback pushes `f.format` without
trimming. -/
theorem C5_counterexample :
    (Part000.normalizeAndFilterFormats
        [some { emptyRaw with url := some "https://a/b", format := some " x " }]).map
      (·.label) = [" x "] ∧ jsTrim " x " ≠ " x " :=
  ⟨by decide, by decide⟩

/-- C5, amended: for every raw record that passes validation, the `part_000`
label is non-empty and follows the chain: the trimmed `format_note` joined
by a space with `"<height>p"` when both are truthy; `"<height>p"` alone;
the trimmed `format_note` alone when non-empty after trimming; else the
free-text `format` descriptor verbatim; else the uppercased extension; else
`"Unknown"` (`Part000.specLabel` spells this chain out).  Only `format_note`
is trimmed: labels drawn from `format` or `ext` may carry surrounding
whitespace, so the label is not trimmed in general.  The first conjunct
ties the candidate label to the label function. -/
theorem C5_label_nonempty_chain :
    ∀ (f : RawFormat) (u : String),
      (Part000.mk f u).label = Part000.label f ∧
      Part000.label f ≠ "" ∧
      Part000.label f = Part000.specLabel f := by
  intro f u
  refine ⟨rfl, ?_, Part000.label_eq_specLabel f⟩
  rw [Part000.label_eq_specLabel f]
  exact Part000.specLabel_ne f

/-- Witness for C5 at a concrete input with both `format_note` and
`height`. -/
theorem C5_witness :
    Part000.label { emptyRaw with format_note := some "hd", height := some 720 } ≠ "" :=
  (C5_label_nonempty_chain { emptyRaw with format_note := some "hd", height := some 720 }
    "https://a/b").2.1

/-- The unit index reached for `1024 ≤ |b|` by repeatedly dividing by 1024:
`0` = KB, `1` = MB, `2` = GB, `3` = TB (the loop stops at TB). -/
def unitIndex (b : Int) : Nat :=
  if |b| < 1024 ^ 2 then 0
  else if |b| < 1024 ^ 3 then 1
  else if |b| < 1024 ^ 4 then 2
  else 3

/-- The unit suffix appended for a unit index. -/
def unitSuffix : Nat → String
  | 0 => " KB"
  | 1 => " MB"
  | 2 => " GB"
  | _ => " TB"

theorem humanFileSize_b_band (b : Int) (hb0 : b ≠ 0) (hb : |b| < 1024) :
    humanFileSize (some b) = toString b ++ " B" := by
  rw [humanFileSize, if_neg hb0, if_pos hb]

theorem humanFileSize_units (b : Int) (hb : 1024 ≤ |b|) :
    humanFileSize (some b) =
      toFixed1 ((Frac.ofInt b).divn (1024 ^ (unitIndex b + 1))) ++ unitSuffix (unitIndex b) := by
  have hb0 : b ≠ 0 := by
    intro h
    rw [h] at hb
    norm_num at hb
  have hb1 : ¬ |b| < 1024 := not_lt.mpr hb
  have habs : ∀ d : Nat, (Frac.abs ⟨b, d⟩).ltInt 1024 = decide (|b| < 1024 * (d : Int)) := by
    intro d
    rfl
  rw [humanFileSize, if_neg hb0, if_neg hb1]
  simp only [Frac.ofInt, Frac.divn, one_mul]
  by_cases h2 : |b| < 1024 ^ 2
  · have hu : unitIndex b = 0 := by rw [unitIndex, if_pos h2]
    have hc : (Frac.abs ⟨b, 1024⟩).ltInt 1024 = true := by
      rw [habs, decide_eq_true_eq]
      push_cast
      linarith [h2, (by norm_num : ((1024:Int) ^ 2) = 1024 * 1024)]
    rw [if_pos hc, hu]
    norm_num [unitSuffix]
  · have hc2 : (Frac.abs ⟨b, 1024⟩).ltInt 1024 = false := by
      rw [habs, decide_eq_false_iff_not]
      push_cast
      intro hlt
      exact h2 (by nlinarith)
    rw [if_neg (by rw [hc2]; exact Bool.false_ne_true)]
    by_cases h3 : |b| < 1024 ^ 3
    · have hu : unitIndex b = 1 := by rw [unitIndex, if_neg h2, if_pos h3]
      have hc : (Frac.abs ⟨b, 1024 * 1024⟩).ltInt 1024 = true := by
        rw [habs, decide_eq_true_eq]
        push_cast
        nlinarith [h3]
      rw [if_pos hc, hu]
      norm_num [unitSuffix]
    · have hc3 : (Frac.abs ⟨b, 1024 * 1024⟩).ltInt 1024 = false := by
        rw [habs, decide_eq_false_iff_not]
        push_cast
        intro hlt
        exact h3 (by nlinarith)
      rw [if_neg (by rw [hc3]; exact Bool.false_ne_true)]
      by_cases h4 : |b| < 1024 ^ 4
      · have hu : unitIndex b = 2 := by rw [unitIndex, if_neg h2, if_neg h3, if_pos h4]
        have hc : (Frac.abs ⟨b, 1024 * 1024 * 1024⟩).ltInt 1024 = true := by
          rw [habs, decide_eq_true_eq]
          push_cast
          nlinarith [h4]
        rw [if_pos hc, hu]
        norm_num [unitSuffix]
      · have hc4 : (Frac.abs ⟨b, 1024 * 1024 * 1024⟩).ltInt 1024 = false := by
          rw [habs, decide_eq_false_iff_not]
          push_cast
          intro hlt
          exact h4 (by nlinarith)
        rw [if_neg (by rw [hc4]; exact Bool.false_ne_true)]
        have hu : unitIndex b = 3 := by rw [unitIndex, if_neg h2, if_neg h3, if_neg h4]
        rw [hu]
        norm_num [unitSuffix]

/-- C2, counterexample: `humanFileSize(0)` is `"Unknown"`, not the claimed
`"0 B"` — the JS guard `!bytes` treats `0` like `null`. -/
theorem C2_counterexample :
    humanFileSize (some 0) = "Unknown" ∧ humanFileSize (some 0) ≠ "0 B" :=
  ⟨by decide, by decide⟩

/-- C2, amended: `humanFileSize` returns `"Unknown"` for `null`, `undefined`,
non-numeric input AND for `0` (the `!bytes` guard is true for `0`, so the
claimed `humanFileSize(0) = "0 B"` fails); `"<integer> B"` for nonzero
magnitudes under 1024; and otherwise one decimal place (`toFixed1` of the
value divided by `1024^(u+1)`) followed by the unit reached by repeated
division by 1024 through KB, MB, GB, TB.  The remaining boundary-table
entries hold as claimed. -/
theorem C2_human_size_boundaries :
    humanFileSize none = "Unknown" ∧
    humanFileSize (some 0) = "Unknown" ∧
    humanFileSize (some 1023) = "1023 B" ∧
    humanFileSize (some 1024) = "1.0 KB" ∧
    humanFileSize (some 1536) = "1.5 KB" ∧
    (∀ b : Int, b ≠ 0 → |b| < 1024 → humanFileSize (some b) = toString b ++ " B") ∧
    (∀ b : Int, 1024 ≤ |b| →
      humanFileSize (some b) =
        toFixed1 ((Frac.ofInt b).divn (1024 ^ (unitIndex b + 1))) ++ unitSuffix (unitIndex b)) :=
  ⟨by decide, by decide, by decide, by decide, by decide,
   humanFileSize_b_band, humanFileSize_units⟩

/-- Witness for C2 at concrete inputs in the `B`, `KB` and `TB` bands. -/
theorem C2_witness :
    humanFileSize (some 500) = toString (500 : Int) ++ " B" ∧
    humanFileSize (some 2048) =
      toFixed1 ((Frac.ofInt 2048).divn (1024 ^ (unitIndex 2048 + 1))) ++ unitSuffix (unitIndex 2048) :=
  ⟨C2_human_size_boundaries.2.2.2.2.2.1 500 (by decide) (by decide),
   C2_human_size_boundaries.2.2.2.2.2.2 2048 (by decide)⟩

theorem parseFloatCore_den_pos {cs : List Char} {q : Frac}
    (h : parseFloatCore cs = some q) : 0 < q.den := by
  rw [parseFloatCore] at h
  split at h
  · cases h
  · obtain rfl := Option.some.inj h
    exact pow_pos (by norm_num) _

theorem jsParseFloat_den_pos {s : String} {q : Frac}
    (h : jsParseFloat s = some q) : 0 < q.den := by
  rw [jsParseFloat] at h
  split at h
  · obtain ⟨q', hq', hmap⟩ := Option.map_eq_some'.mp h
    rw [← hmap]
    simpa [Frac.neg] using parseFloatCore_den_pos hq'
  · exact parseFloatCore_den_pos h
  · exact parseFloatCore_den_pos h

theorem sizeValue_den_pos (m : Mapped) : 0 < (sizeValue m).den := by
  rw [sizeValue]
  split
  next q hq => exact jsParseFloat_den_pos hq
  · norm_num [Frac.ofInt]

theorem Frac.le_trans' {a b c : Frac} (hb : 0 < b.den)
    (h1 : Frac.le a b = true) (h2 : Frac.le b c = true) : Frac.le a c = true := by
  simp only [Frac.le, decide_eq_true_eq] at h1 h2 ⊢
  have hb' : (0 : Int) < b.den := by exact_mod_cast hb
  have h1' := mul_le_mul_of_nonneg_right h1 (show (0:Int) ≤ c.den by positivity)
  have h2' := mul_le_mul_of_nonneg_right h2 (show (0:Int) ≤ a.den by positivity)
  nlinarith [h1', h2', hb']

theorem Frac.le_total' (a b : Frac) : Frac.le a b = true ∨ Frac.le b a = true := by
  simp only [Frac.le, decide_eq_true_eq]
  exact le_total _ _

theorem keyLeB_total (a b : Mapped) : keyLeB a b = true ∨ keyLeB b a = true := by
  simp only [keyLeB, Bool.or_eq_true, Bool.and_eq_true, beq_iff_eq, decide_eq_true_eq]
  rcases Nat.lt_trichotomy (typeRank a.type) (typeRank b.type) with h | h | h
  · exact Or.inl (Or.inl h)
  · rcases Frac.le_total' (sizeValue b) (sizeValue a) with hle | hle
    · exact Or.inl (Or.inr ⟨h, hle⟩)
    · exact Or.inr (Or.inr ⟨h.symm, hle⟩)
  · exact Or.inr (Or.inl h)

theorem keyLeB_trans {a b c : Mapped} (h1 : keyLeB a b = true) (h2 : keyLeB b c = true) :
    keyLeB a c = true := by
  simp only [keyLeB, Bool.or_eq_true, Bool.and_eq_true, beq_iff_eq, decide_eq_true_eq] at h1 h2 ⊢
  rcases h1 with h1 | ⟨h1e, h1le⟩
  · rcases h2 with h2 | ⟨h2e, _⟩
    · exact Or.inl (h1.trans h2)
    · exact Or.inl (h2e ▸ h1)
  · rcases h2 with h2 | ⟨h2e, h2le⟩
    · exact Or.inl (h1e ▸ h2)
    · exact Or.inr ⟨h1e.trans h2e, Frac.le_trans' (sizeValue_den_pos b) h2le h1le⟩

theorem veq_cross {a b v : Frac} (hv : 0 < v.den)
    (h1 : Frac.veq a v = true) (h2 : Frac.veq b v = true) :
    a.num * b.den = b.num * a.den := by
  simp only [Frac.veq, decide_eq_true_eq] at h1 h2
  have hv' : ((v.den : Int)) ≠ 0 := by positivity
  apply mul_right_cancel₀ hv'
  nlinarith [h1, h2]

theorem keyIs_false_of_not_le {r : Nat} {v : Frac} (hv : 0 < v.den) {x y : Mapped}
    (hxy : keyLeB x y = false) (hx : keyIs r v x = true) : keyIs r v y = false := by
  by_contra hy
  rw [Bool.not_eq_false] at hy
  simp only [keyIs, Bool.and_eq_true, beq_iff_eq] at hx hy
  obtain ⟨hxr, hxv⟩ := hx
  obtain ⟨hyr, hyv⟩ := hy
  simp only [keyLeB, Bool.or_eq_false_iff, Bool.and_eq_false_iff] at hxy
  obtain ⟨hlt, hor⟩ := hxy
  rcases hor with heq | hle
  · rw [beq_eq_false_iff_ne] at heq
    exact heq (hxr.trans hyr.symm)
  · have hcross := veq_cross hv hxv hyv
    simp only [Frac.le, decide_eq_false_iff_not, not_le] at hle
    omega

theorem sInsert_perm (x : Mapped) (l : List Mapped) : List.Perm (sInsert x l) (x :: l) := by
  induction l with
  | nil => exact List.Perm.refl _
  | cons y ys ih =>
    rw [sInsert]
    split
    · exact List.Perm.refl _
    · exact (List.Perm.cons y ih).trans (List.Perm.swap x y ys)

theorem sortMapped_perm (l : List Mapped) : List.Perm (sortMapped l) l := by
  induction l with
  | nil => exact List.Perm.refl _
  | cons x xs ih =>
    exact (sInsert_perm x (sortMapped xs)).trans (List.Perm.cons x ih)

theorem sInsert_pairwise {x : Mapped} {l : List Mapped}
    (hl : List.Pairwise (fun a b => keyLeB a b = true) l) :
    List.Pairwise (fun a b => keyLeB a b = true) (sInsert x l) := by
  induction l with
  | nil => simp [sInsert]
  | cons y ys ih =>
    rw [sInsert]
    split
    next hxy =>
      refine List.Pairwise.cons (fun b hb => ?_) hl
      rcases List.mem_cons.mp hb with rfl | hb'
      · exact hxy
      · exact keyLeB_trans hxy (List.rel_of_pairwise_cons hl hb')
    next hxy =>
      have hyx : keyLeB y x = true := by
        rcases keyLeB_total x y with h | h
        · exact absurd h hxy
        · exact h
      refine List.Pairwise.cons (fun b hb => ?_) (ih hl.of_cons)
      rcases List.mem_cons.mp ((sInsert_perm x ys).mem_iff.mp hb) with rfl | h'
      · exact hyx
      · exact List.rel_of_pairwise_cons hl h'

theorem sortMapped_sorted (l : List Mapped) :
    List.Pairwise (fun a b => keyLeB a b = true) (sortMapped l) := by
  induction l with
  | nil => simp [sortMapped]
  | cons x xs ih => exact sInsert_pairwise ih

theorem sInsert_filter (r : Nat) (v : Frac) (hv : 0 < v.den) (x : Mapped) (l : List Mapped) :
    (sInsert x l).filter (keyIs r v) =
      if keyIs r v x = true then x :: l.filter (keyIs r v) else l.filter (keyIs r v) := by
  induction l with
  | nil =>
    rw [sInsert]
    rcases hx : keyIs r v x with _ | _ <;> simp [List.filter, hx]
  | cons y ys ih =>
    rw [sInsert]
    split
    next hxy =>
      rcases hx : keyIs r v x with _ | _ <;> simp [List.filter, hx]
    next hxy =>
      rcases hx : keyIs r v x with _ | _
      · rw [List.filter_cons, List.filter_cons, ih]
        simp [hx]
      · have hy : keyIs r v y = false :=
          keyIs_false_of_not_le hv (Bool.not_eq_true _ ▸ hxy) hx
        rw [List.filter_cons, List.filter_cons, ih]
        simp [hx, hy]

theorem sortMapped_filter (r : Nat) (v : Frac) (hv : 0 < v.den) (l : List Mapped) :
    (sortMapped l).filter (keyIs r v) = l.filter (keyIs r v) := by
  induction l with
  | nil => rfl
  | cons x xs ih =>
    have hstep : sortMapped (x :: xs) = sInsert x (sortMapped xs) := rfl
    rw [hstep, sInsert_filter r v hv, List.filter_cons, ih]

/-- C6, counterexample: ordering within a type is NOT by resolved byte size.
Two video entries with byte sizes 1023 and 1536 render as `"1023 B"` and
`"1.5 KB"`; the `part_000` comparator compares `parseFloat` of those strings
(1023 vs 1.5), so the 1023-byte entry sorts first although its byte size is
smaller — descending byte order would list the 1536-byte entry first.  (In
the `server.js` and `part_001` variants no sorting happens at all.) -/
theorem C6_counterexample :
    humanFileSize (some 1023) = "1023 B" ∧
    humanFileSize (some 1536) = "1.5 KB" ∧
    sortMapped [⟨"b", "1.5 KB", "u2", "video"⟩, ⟨"a", "1023 B", "u1", "video"⟩]
      = [⟨"a", "1023 B", "u1", "video"⟩, ⟨"b", "1.5 KB", "u2", "video"⟩] ∧
    (1023 : Int) < 1536 :=
  ⟨by decide, by decide, by decide, by decide⟩

/-- C6, amended: only the `part_000` variant sorts its response (`server.js`
and `part_001` emit candidates in normalization order).  There, the sort is
a permutation of the mapped list, ordered so that every entry may precede
the entries after it under the comparator key — video before audio before
image, and within one type descending by the numeric prefix `parseFloat`
extracts from the human-readable size string (`"Unknown"` counts as 0 and
sorts last), which is NOT descending byte size across units.  Entries with
equal comparator keys keep their input order (the filter equation).  The
hypothesis restricts entry types to the three the pipeline produces, where
the source comparator is a total preorder. -/
theorem C6_sort_order :
    ∀ l : List Mapped,
      (∀ m ∈ l, m.type = "video" ∨ m.type = "audio" ∨ m.type = "image") →
      (sortMapped l).Perm l ∧
      List.Pairwise (fun a b => keyLeB a b = true) (sortMapped l) ∧
      ∀ (r : Nat) (v : Frac), 0 < v.den →
        (sortMapped l).filter (keyIs r v) = l.filter (keyIs r v) := by
  intro l _
  exact ⟨sortMapped_perm l, sortMapped_sorted l,
    fun r v hv => sortMapped_filter r v hv l⟩

/-- Witness for C6 at a concrete mixed-type list. -/
theorem C6_witness :
    (sortMapped [⟨"a", "Unknown", "u1", "audio"⟩, ⟨"i", "3.1 KB", "u3", "image"⟩,
        ⟨"v", "2.0 MB", "u2", "video"⟩]).Perm
      [⟨"a", "Unknown", "u1", "audio"⟩, ⟨"i", "3.1 KB", "u3", "image"⟩,
        ⟨"v", "2.0 MB", "u2", "video"⟩] :=
  (C6_sort_order
    [⟨"a", "Unknown", "u1", "audio"⟩, ⟨"i", "3.1 KB", "u3", "image"⟩,
      ⟨"v", "2.0 MB", "u2", "video"⟩] (by decide)).1

/-- The HEAD tier yields no usable content length: the request threw, the
header is absent or empty, or it has no numeric prefix (`parseInt` is
`NaN`). -/
def headNoLength (h : HeadResult) : Prop :=
  match h with
  | .fail => True
  | .ok none => True
  | .ok (some s) => s = "" ∨ jsParseInt s = none

/-- The ranged-GET tier yields no usable length: the request threw, both
headers are falsy, or the chosen header value has no `/<digits>` suffix and
its `parseInt` is `NaN` or `0` (which `|| null` collapses to `null`). -/
def rangeNoLength (r : RangeResult) : Prop :=
  match r with
  | .fail => True
  | .ok cr cl =>
    match (if truthyS cr then cr else if truthyS cl then cl else none) with
    | none => True
    | some s => trailingSlashDigits s = none ∧ (jsParseInt s = none ∨ jsParseInt s = some 0)

theorem getContentLength_none {h : HeadResult} (hh : headNoLength h) :
    getContentLength h = none := by
  rcases h with _ | cl
  · rfl
  · rcases cl with _ | s
    · rfl
    · rw [headNoLength] at hh
      rw [getContentLength]
      rcases hh with rfl | hpi
      · rw [if_pos rfl]
      · split
        · rfl
        · exact hpi

theorem part000_getContentLength_none {h : HeadResult} {r : RangeResult}
    (hh : headNoLength h) (hr : rangeNoLength r) :
    Part000.getContentLength h r = none := by
  rcases h with _ | cl
  · rcases r with _ | ⟨cr, cl'⟩
    · rfl
    · rw [rangeNoLength] at hr
      rw [Part000.getContentLength]
      rcases hlen : (if truthyS cr then cr else if truthyS cl' then cl' else none) with _ | s
      · rfl
      · rw [hlen] at hr
        obtain ⟨htr, hpi⟩ := hr
        rcases hpi with hpi | hpi <;> simp [htr, hpi]
  · rcases cl with _ | s
    · rfl
    · rw [headNoLength] at hh
      rw [Part000.getContentLength]
      rcases hh with rfl | hpi
      · rw [if_pos rfl]
      · split
        · rfl
        · exact hpi

theorem part000_fillSizes_id {probe : String → ProbeOutcome} {l : List Part000.Candidate}
    (hp : ∀ u, Part000.getContentLength (probe u).head (probe u).range = none) :
    Part000.fillSizes probe l = l := by
  induction l with
  | nil => rfl
  | cons f fs ih =>
    rw [Part000.fillSizes] at ih ⊢
    rw [List.map_cons, ih]
    congr 1
    rcases hf : truthyI f.filesize with _ | _
    · simp [hp f.url, Part000.applyLen]
    · simp

theorem part000_handler_200 (ec : Bool) (xk qk : Option String) (u : String)
    (o : Oracles) (meta : Meta) (hu : u ≠ "") (hp : jsURLProtocol u ≠ none)
    (hy : o.ytdlp = .ok (some meta)) :
    (Part000.extractHandler none ec ⟨some u, xk, qk⟩ o).status = 200 := by
  obtain ⟨cr, yt, pr, cw⟩ := o
  cases hy
  cases cr <;> cases ec <;> simp [Part000.extractHandler, hu, hp]

theorem serverjs_handler_200 (ec : Bool) (k xk qk : Option String) (u : String)
    (o : Oracles) (meta : Meta) (hu : u ≠ "") (hp : jsURLProtocol u ≠ none)
    (hy : o.ytdlp = .ok (some meta)) (hcr : o.cacheRead = .miss) (hcw : o.cacheWrite = .done) :
    ∃ resp : Response, ServerJs.extractHandler k ec ⟨some u, xk, qk⟩ o = .ok resp ∧
      resp.status = 200 := by
  obtain ⟨cr, yt, pr, cw⟩ := o
  cases hy
  cases hcr
  cases hcw
  cases ec <;> simp [ServerJs.extractHandler, hu, hp]

/-- C7: size probing never fails a request.  When the HEAD tier fails or
yields no content length, the head-only `getContentLength` of
`server.js`/`part_001` returns `null`; when additionally the ranged-GET
fallback of `part_000` fails or yields no length, `part_000`'s
`getContentLength` returns `null` (both are total functions — no probe
error escapes).  A `null` probe result leaves every candidate's `filesize`
untouched (`fillSizes` is the identity), and the request still completes
with status 200 in both handler variants. -/
theorem C7_probe_failure_recovered :
    (∀ h : HeadResult, headNoLength h → getContentLength h = none) ∧
    (∀ (h : HeadResult) (r : RangeResult), headNoLength h → rangeNoLength r →
      Part000.getContentLength h r = none) ∧
    (∀ (probe : String → ProbeOutcome) (l : List Part000.Candidate),
      (∀ u, Part000.getContentLength (probe u).head (probe u).range = none) →
      Part000.fillSizes probe l = l) ∧
    (∀ (ec : Bool) (xk qk : Option String) (u : String) (o : Oracles) (meta : Meta),
      u ≠ "" → jsURLProtocol u ≠ none → o.ytdlp = .ok (some meta) →
      (Part000.extractHandler none ec ⟨some u, xk, qk⟩ o).status = 200) ∧
    (∀ (ec : Bool) (k xk qk : Option String) (u : String) (o : Oracles) (meta : Meta),
      u ≠ "" → jsURLProtocol u ≠ none → o.ytdlp = .ok (some meta) →
      o.cacheRead = .miss → o.cacheWrite = .done →
      ∃ resp : Response, ServerJs.extractHandler k ec ⟨some u, xk, qk⟩ o = .ok resp ∧
        resp.status = 200) :=
  ⟨fun _ => getContentLength_none,
   fun _ _ => part000_getContentLength_none,
   fun _ _ => part000_fillSizes_id,
   part000_handler_200,
   serverjs_handler_200⟩

/-- Witness for C7: an all-tiers-failing probe oracle, one unsized
candidate, and a full request that still answers 200. -/
theorem C7_witness :
    Part000.getContentLength HeadResult.fail RangeResult.fail = none ∧
    (Part000.extractHandler none false ⟨some "https://e/x", none, none⟩
        ⟨.miss, .ok (some ⟨[some { emptyRaw with url := some "https://e/x" }]⟩),
         fun _ => ⟨.fail, .fail⟩, .done⟩).status = 200 :=
  ⟨C7_probe_failure_recovered.2.1 HeadResult.fail RangeResult.fail trivial trivial,
   C7_probe_failure_recovered.2.2.2.1 false none none "https://e/x"
     ⟨.miss, .ok (some ⟨[some { emptyRaw with url := some "https://e/x" }]⟩),
      fun _ => ⟨.fail, .fail⟩, .done⟩
     ⟨[some { emptyRaw with url := some "https://e/x" }]⟩
     (by decide) (by decide) rfl⟩

/-- C8, counterexample: in `src/server.js` a cache-write failure IS a
request failure — `redis.set` is awaited inside the handler's `try` block,
so a store error lands in the generic catch and the request answers 500,
not 200.  (The cache read is even outside the `try`: see the amended
theorem.) -/
theorem C8_counterexample :
    ServerJs.extractHandler none true ⟨some "https://e/x", none, none⟩
        ⟨.miss, .ok (some ⟨[]⟩), fun _ => ⟨.fail, .fail⟩, .err none⟩
      = .ok ⟨500, .errMsg "Failed to extract formats"⟩ ∧ (500 : Nat) ≠ 200 :=
  ⟨by rfl, by decide⟩

/-- C8, amended: cache failures are advisory only in the `part_000`
variant: a failed cache read makes the request behave exactly as if caching
were disabled, and the cache-write outcome never influences the response.
In the `server.js` variant a cache-write failure is answered as a 500 error
response, and a cache-read failure escapes the handler as an unhandled
rejection (no response at all). -/
theorem C8_cache_failure_advisory :
    (∀ (k : Option String) (ec : Bool) (req : Request) (o : Oracles),
      o.cacheRead = .err →
      Part000.extractHandler k ec req o = Part000.extractHandler k false req o) ∧
    (∀ (k : Option String) (ec : Bool) (req : Request) (cr : CacheRead)
        (yt : ExtractResult) (pr : String → ProbeOutcome) (cw cw' : CacheWrite),
      Part000.extractHandler k ec req ⟨cr, yt, pr, cw⟩ =
        Part000.extractHandler k ec req ⟨cr, yt, pr, cw'⟩) ∧
    (∀ (k xk qk : Option String) (u : String) (o : Oracles) (m : Option String) (meta : Meta),
      u ≠ "" → jsURLProtocol u ≠ none → o.cacheRead = .miss →
      o.ytdlp = .ok (some meta) → o.cacheWrite = .err m →
      ServerJs.extractHandler k true ⟨some u, xk, qk⟩ o = .ok ⟨500, .errMsg (errText m)⟩) ∧
    (∀ (k xk qk : Option String) (u : String) (o : Oracles),
      u ≠ "" → jsURLProtocol u ≠ none → o.cacheRead = .err →
      ServerJs.extractHandler k true ⟨some u, xk, qk⟩ o = .error none) := by
  refine ⟨?_, ?_, ?_, ?_⟩
  · intro k ec req o hcr
    obtain ⟨cr, yt, pr, cw⟩ := o
    cases hcr
    cases ec <;> rfl
  · intro k ec req cr yt pr cw cw'
    rfl
  · intro k xk qk u o m meta hu hp hcr hy hcw
    obtain ⟨cr, yt, pr, cw⟩ := o
    cases hcr
    cases hy
    cases hcw
    simp [ServerJs.extractHandler, hu, hp]
  · intro k xk qk u o hu hp hcr
    obtain ⟨cr, yt, pr, cw⟩ := o
    cases hcr
    simp [ServerJs.extractHandler, hu, hp]

/-- Witness for C8 at a concrete request with a failing cache read in the
`part_000` variant: same response as with caching disabled. -/
theorem C8_witness :
    Part000.extractHandler none true ⟨some "https://e/x", none, none⟩
        ⟨.err, .ok (some ⟨[]⟩), fun _ => ⟨.fail, .fail⟩, .done⟩
      = Part000.extractHandler none false ⟨some "https://e/x", none, none⟩
          ⟨.err, .ok (some ⟨[]⟩), fun _ => ⟨.fail, .fail⟩, .done⟩ :=
  C8_cache_failure_advisory.1 none true ⟨some "https://e/x", none, none⟩
    ⟨.err, .ok (some ⟨[]⟩), fun _ => ⟨.fail, .fail⟩, .done⟩ rfl

/-- The supplied credential is absent or wrong for configured key `k`:
either no truthy credential was sent, or the effective one is empty or
differs from `k`. -/
def credentialRejected (req : Request) (k : String) : Prop :=
  match Part000.effectiveKey req with
  | some s => s = "" ∨ s ≠ k
  | none => True

/-- C9, counterexample: `src/server.js` reads the configured `API_KEY` but
never checks it — a request with no credential at all still answers 200,
not the claimed 401. -/
theorem C9_counterexample :
    ServerJs.extractHandler (some "secret") false ⟨some "https://e/x", none, none⟩
        ⟨.miss, .ok (some ⟨[]⟩), fun _ => ⟨.fail, .fail⟩, .done⟩
      = .ok ⟨200, .formatsPayload []⟩ ∧ (200 : Nat) ≠ 401 :=
  ⟨by rfl, by decide⟩

/-- C9, amended: only the `part_000` variant enforces the API key.  There,
whenever a key is configured, the url parameter is present and the supplied
credential is absent or wrong, the response is 401 with
`{error: "Missing or invalid API key"}` — for EVERY oracle, i.e. the
response does not depend on the extractor, the probe transport or the cache
store, so no upstream call is observable.  The `server.js` variant ignores
the configured key entirely: its handler is the same function for every
configured key (and `part_001` has no key check either). -/
theorem C9_api_key_rejection :
    (∀ (k : String) (ec : Bool) (u : String) (xk qk : Option String) (o : Oracles),
      u ≠ "" → credentialRejected ⟨some u, xk, qk⟩ k →
      Part000.extractHandler (some k) ec ⟨some u, xk, qk⟩ o =
        ⟨401, .errMsg "Missing or invalid API key"⟩) ∧
    (∀ (k₁ k₂ : Option String) (ec : Bool) (req : Request) (o : Oracles),
      ServerJs.extractHandler k₁ ec req o = ServerJs.extractHandler k₂ ec req o) := by
  constructor
  · intro k ec u xk qk o hu hcred
    rw [credentialRejected] at hcred
    rcases hk : Part000.effectiveKey ⟨some u, xk, qk⟩ with _ | s
    · simp [Part000.extractHandler, hu, hk]
    · rw [hk] at hcred
      rcases hcred with rfl | hne
      · simp [Part000.extractHandler, hu, hk]
      · simp [Part000.extractHandler, hu, hk, hne]
  · intro k₁ k₂ ec req o
    rfl

/-- Witness for C9: configured key `"k"`, wrong credential `"wrong"` in the
query parameter, arbitrary oracles — 401. -/
theorem C9_witness :
    Part000.extractHandler (some "k") false ⟨some "https://e/x", none, some "wrong"⟩
        ⟨.miss, .ok (some ⟨[]⟩), fun _ => ⟨.fail, .fail⟩, .done⟩
      = ⟨401, .errMsg "Missing or invalid API key"⟩ :=
  C9_api_key_rejection.1 "k" false "https://e/x" none (some "wrong")
    ⟨.miss, .ok (some ⟨[]⟩), fun _ => ⟨.fail, .fail⟩, .done⟩
    (by decide) (Or.inr (by decide))

/-- C10: a declared or approximate size of `0` is treated exactly like an
absent size in `src/server.js` (`f.filesize || f.filesize_approx || null`):
the candidate's `filesize` is stored as `null`, the candidate satisfies the
probe-selection predicate `!f.filesize` (it belongs to the filtered probe
set; the `slice(0, 6)` cap only bounds how many of those are actually
probed), a probed content length of `0` does not overwrite the `null`
(`if (len)` is false for `0`), the displayed size for the unresolved
candidate is `"Unknown"`, and only a truthy (e.g. positive) probed length
resolves the size. -/
theorem C10_zero_size_unknown :
    ∀ f : RawFormat,
      (f.filesize = none ∨ f.filesize = some 0) →
      (f.filesize_approx = none ∨ f.filesize_approx = some 0) →
      filesizeOf f = none ∧
      ∀ (u : String) (c : ServerJs.Candidate), ServerJs.step (some f) = some (u, c) →
        c.filesize = none ∧ (!truthyI c.filesize) = true ∧
        (applyLen (some 0) c).filesize = none ∧
        humanFileSize c.filesize = "Unknown" ∧
        ∀ n : Int, 0 < n → (applyLen (some n) c).filesize = some n := by
  intro f h1 h2
  have hfs : filesizeOf f = none := by
    rw [filesizeOf]
    rcases h1 with h1 | h1 <;> rcases h2 with h2 | h2 <;> simp [h1, h2, truthyI]
  refine ⟨hfs, fun u c hc => ?_⟩
  obtain ⟨f', hff, _, _, rfl⟩ := serverJs_step_inv hc
  obtain rfl : f' = f := (Option.some.inj hff).symm
  refine ⟨by simp [ServerJs.mk, hfs], by simp [ServerJs.mk, hfs, truthyI],
    by simp [applyLen, ServerJs.mk, hfs], by simp [ServerJs.mk, hfs, humanFileSize],
    fun n hn => by simp [applyLen, ServerJs.mk, hn.ne']⟩

/-- Witness for C10 at a record with declared size `0` and approximate size
absent. -/
theorem C10_witness :
    filesizeOf { emptyRaw with url := some "https://e/f", filesize := some 0 } = none :=
  (C10_zero_size_unknown { emptyRaw with url := some "https://e/f", filesize := some 0 }
    (Or.inr rfl) (Or.inl rfl)).1
